import Mathlib

/-!
Verification development for the `streamchatbackend` core of the ai-chat-app
repository: a shallow embedding, in Lean, of the streaming response
orchestration and cancellation logic of `OpenAIAgent.ts`,
`OpenAIResponseHandler.ts` and `serverClient.ts`, together with theorems
settling the behavioural properties claimed of that code.

Conventions of the embedding:
- JavaScript strings become `String`, `undefined`-able values become `Option`,
  millisecond clock readings (`Date.now()`) become `Nat` arguments on the
  stream fragments.
- JavaScript truthiness on optional strings (`undefined` and `""` are falsy)
  is `jsTruthyOpt` / `jsFalsyStr`.
- External effects (indicator events, message-store writes, controller
  aborts, unsubscriptions) are recorded as values in effect lists rather than
  performed, so that what a code path emits is a provable fact.
-/

/-- JavaScript truthiness filter on an optional string: `undefined` and the
empty string are falsy; a non-empty string passes through. -/
def jsTruthyOpt : Option String → Option String
  | none => none
  | some s => if s = "" then none else some s

/-- JavaScript falsiness test on an optional string value. -/
def jsFalsyStr (o : Option String) : Bool := (jsTruthyOpt o).isNone

/-- Concatenation of a list of strings in order (the reference notion used to
state the accumulation claims). -/
def concatAll : List String → String
  | [] => ""
  | s :: rest => s ++ concatAll rest

/-- Escaping performed by `JSON.stringify` on the string values that the code
places into its error objects (quote and backslash, the only characters that
can occur in the payloads the code builds). -/
def escapeJson (s : String) : String :=
  s.foldl
    (fun acc c =>
      if c = '\\' then acc ++ "\\\\"
      else if c = '"' then acc ++ "\\\"" else acc.push c)
    ""

/-- `JSON.stringify(\x7b error: msg \x7d)` as produced by the web-search code paths. -/
def jsonErrorObj (msg : String) : String :=
  "\x7b\"error\":\"" ++ escapeJson msg ++ "\"\x7d"

/-- `JSON.stringify(\x7b error: msg, details: details \x7d)` as produced on a failed
search HTTP response. -/
def jsonErrorDetails (msg details : String) : String :=
  "\x7b\"error\":\"" ++ escapeJson msg ++ "\",\"details\":\"" ++ escapeJson details ++ "\"\x7d"

namespace OpenAIAgent

/-- One entry of a streamed `delta.tool_calls` array: `index`, optional `id`
and `type`, and the optional incremental `function.name` and
`function.arguments` pieces (the nested `function` object flattened, with
absence of the whole object represented by both fields absent). -/
structure ToolCallDelta where
  index : Nat
  id : Option String
  tcType : Option String
  fnName : Option String
  fnArguments : Option String
deriving DecidableEq, Repr

/-- One slot of the agent's `pendingToolCalls` array: the object created at
the first sighting of an index (`id`, `type` from that fragment) whose
`function.name` / `function.arguments` strings grow by concatenation. -/
structure PendingToolCall where
  id : Option String
  tcType : Option String
  name : String
  arguments : String
deriving DecidableEq, Repr

/-- `pendingToolCalls` is a JavaScript array indexed by `toolCall.index`;
holes (never-assigned indices below the length) read as `undefined`. -/
abbrev PendingArr := List (Option PendingToolCall)

/-- Array read `pendingToolCalls[i]` (out of range or hole gives `undefined`). -/
def getSlot (l : PendingArr) (i : Nat) : Option PendingToolCall :=
  l[i]?.getD none

/-- Array write `pendingToolCalls[i] = v`: in-range assignment overwrites;
past-the-end assignment extends the array with holes up to `i`. -/
def setSlot (l : PendingArr) (i : Nat) (v : Option PendingToolCall) : PendingArr :=
  if i < l.length then l.set i v
  else l ++ List.replicate (i - l.length) none ++ [v]

/-- In-place update of the slot at `i` (used for the `+=` concatenations; a
hole stays a hole, matching that the code only updates just-created slots). -/
def modifySlot (l : PendingArr) (i : Nat) (f : PendingToolCall → PendingToolCall) : PendingArr :=
  l.set i ((getSlot l i).map f)

/-- The body of the `for (const toolCall of delta.tool_calls)` loop
(`OpenAIAgent.ts` lines 206-221): create the slot on first sighting of the
index, then concatenate the truthy `function.name` and `function.arguments`
pieces onto it. -/
def applyToolCallDelta (pending : PendingArr) (tc : ToolCallDelta) : PendingArr :=
  let pending :=
    match getSlot pending tc.index with
    | none => setSlot pending tc.index (some ⟨tc.id, tc.tcType, "", ""⟩)
    | some _ => pending
  let pending :=
    match jsTruthyOpt tc.fnName with
    | some s => modifySlot pending tc.index (fun p => { p with name := p.name ++ s })
    | none => pending
  match jsTruthyOpt tc.fnArguments with
  | some s => modifySlot pending tc.index (fun p => { p with arguments := p.arguments ++ s })
  | none => pending

/-- Effect of a single fragment on the single slot it addresses (pointwise
view of `applyToolCallDelta` at the fragment's own index). -/
def applyAt (s : Option PendingToolCall) (tc : ToolCallDelta) : PendingToolCall :=
  let p := match s with
    | none => (⟨tc.id, tc.tcType, "", ""⟩ : PendingToolCall)
    | some v => v
  let p := match jsTruthyOpt tc.fnName with
    | some s => { p with name := p.name ++ s }
    | none => p
  match jsTruthyOpt tc.fnArguments with
  | some s => { p with arguments := p.arguments ++ s }
  | none => p

theorem getSlot_nil (i : Nat) : getSlot [] i = none := by
  simp [getSlot]

theorem getSlot_setSlot_self (l : PendingArr) (i : Nat) (v : Option PendingToolCall) :
    getSlot (setSlot l i v) i = v := by
  unfold getSlot setSlot
  split
  · rename_i h
    rw [List.getElem?_set_self h]
    rfl
  · rename_i h
    have h' : l.length ≤ i := Nat.le_of_not_lt h
    rw [List.append_assoc, List.getElem?_append_right h',
      List.getElem?_append_right (by simp)]
    simp

theorem getSlot_setSlot_ne (l : PendingArr) (i j : Nat) (v : Option PendingToolCall)
    (h : j ≠ i) : getSlot (setSlot l i v) j = getSlot l j := by
  unfold getSlot setSlot
  split
  · rw [List.getElem?_set_ne (fun hh => h hh.symm)]
  · rename_i hlen
    rcases Nat.lt_or_ge j l.length with hj | hj
    · rw [List.append_assoc, List.getElem?_append_left hj]
    · rcases Nat.lt_or_ge j i with hji | hji
      · rw [List.append_assoc, List.getElem?_append_right hj,
          List.getElem?_append_left (by simp; omega), List.getElem?_replicate,
          if_pos (by omega), List.getElem?_eq_none hj]
        rfl
      · have hji' : i < j := by omega
        rw [List.getElem?_eq_none (by simp; omega), List.getElem?_eq_none hj]

theorem getSlot_modifySlot_self (l : PendingArr) (i : Nat) (f : PendingToolCall → PendingToolCall) :
    getSlot (modifySlot l i f) i = (getSlot l i).map f := by
  unfold modifySlot
  rcases Nat.lt_or_ge i l.length with h | h
  · unfold getSlot
    rw [List.getElem?_set_self h]
    rfl
  · rw [List.set_eq_of_length_le h]
    have hnone : getSlot l i = none := by
      unfold getSlot
      rw [List.getElem?_eq_none h]
      rfl
    rw [hnone]
    rfl

theorem getSlot_modifySlot_ne (l : PendingArr) (i j : Nat) (f : PendingToolCall → PendingToolCall)
    (h : j ≠ i) : getSlot (modifySlot l i f) j = getSlot l j := by
  unfold modifySlot getSlot
  rw [List.getElem?_set_ne (fun hh => h hh.symm)]

/-- Pointwise characterisation of one fragment step: the fragment only
touches the slot at its own index, where it acts as `applyAt`. -/
theorem getSlot_applyToolCallDelta (pending : PendingArr) (tc : ToolCallDelta) (i : Nat) :
    getSlot (applyToolCallDelta pending tc) i =
      if tc.index = i then some (applyAt (getSlot pending tc.index) tc)
      else getSlot pending i := by
  unfold applyToolCallDelta applyAt
  by_cases hi : tc.index = i
  · rw [if_pos hi]
    subst hi
    rcases htc : getSlot pending tc.index with _ | v <;>
      rcases hn : jsTruthyOpt tc.fnName with _ | s <;>
        rcases ha : jsTruthyOpt tc.fnArguments with _ | t <;>
          simp [htc, hn, ha, getSlot_setSlot_self, getSlot_modifySlot_self]
  · rw [if_neg hi]
    have hne : i ≠ tc.index := fun hh => hi hh.symm
    rcases htc : getSlot pending tc.index with _ | v <;>
      rcases hn : jsTruthyOpt tc.fnName with _ | s <;>
        rcases ha : jsTruthyOpt tc.fnArguments with _ | t <;>
          simp [htc, hn, ha, getSlot_setSlot_ne _ _ _ _ hne, getSlot_modifySlot_ne _ _ _ _ hne]

/-- Folding a fragment list over the array, viewed at one index, is the fold
of just that index's fragments over the slot value. -/
theorem getSlot_foldl (tcs : List ToolCallDelta) (acc : PendingArr) (i : Nat) :
    getSlot (tcs.foldl applyToolCallDelta acc) i =
      (tcs.filter (fun tc => tc.index = i)).foldl (fun s tc => some (applyAt s tc)) (getSlot acc i) := by
  induction tcs generalizing acc with
  | nil => rfl
  | cons tc rest ih =>
    simp only [List.foldl_cons]
    rw [ih, getSlot_applyToolCallDelta]
    by_cases h : tc.index = i
    · subst h
      simp [List.filter_cons]
    · simp [List.filter_cons, h]

/-- The slots grown from `v` by a fragment list: identity from the first
fragment kept, strings grown by the truthy pieces in arrival order. -/
theorem foldl_applyAt_some (l : List ToolCallDelta) (v : PendingToolCall) :
    l.foldl (fun s tc => some (applyAt s tc)) (some v) =
      some ⟨v.id, v.tcType,
        v.name ++ concatAll (l.filterMap (fun tc => jsTruthyOpt tc.fnName)),
        v.arguments ++ concatAll (l.filterMap (fun tc => jsTruthyOpt tc.fnArguments))⟩ := by
  induction l generalizing v with
  | nil => simp [concatAll]
  | cons tc rest ih =>
    simp only [List.foldl_cons]
    rw [ih]
    unfold applyAt
    rcases hn : jsTruthyOpt tc.fnName with _ | s <;>
      rcases ha : jsTruthyOpt tc.fnArguments with _ | t <;>
      simp [hn, ha, concatAll, String.append_assoc]

/-- One chunk of the streamed completion as consumed by the
`for await (const chunk of stream)` loop (`OpenAIAgent.ts` lines 186-229):
the `Date.now()` reading taken while processing it, the optional
`delta.content` text piece, the `delta.tool_calls` array (absent modelled as
`[]`, which the loop treats identically), and the optional
`choices[0].finish_reason`. -/
structure Chunk where
  time : Nat
  content : Option String
  tool_calls : List ToolCallDelta
  finish_reason : Option String
deriving DecidableEq, Repr

/-- How the external abort signal interacts with this generation's loop:
either it is never set, or the `controller.signal.aborted` check at the top
of the loop sees it before chunk `k` is processed (the `break` path), or the
awaited pull of chunk `k` raises `AbortError` (the exception path, swallowed
by the `catch` whose guard skips `AbortError`). -/
inductive AbortMode where
  | noAbort
  | breakAt (k : Nat)
  | throwAt (k : Nat)
deriving DecidableEq, Repr

/-- Mutable loop state: the accumulated `messageText`, the throttle clock
`lastUpdateTime` (initialised to `0`, i.e. the epoch, not to the stream start
time), the `pendingToolCalls` array, and the record of throttled
`partialUpdateMessage` writes performed so far (time and full text written). -/
structure LoopState where
  messageText : String
  lastUpdateTime : Nat
  pendingToolCalls : PendingArr
  flushes : List (Nat × String)
deriving DecidableEq, Repr

def initLoopState : LoopState := ⟨"", 0, [], []⟩

/-- How the fragment loop ended. -/
inductive LoopEnd where
  | exhausted
  | brokeOnAbort
  | threwAbort
  | toolReturn
deriving DecidableEq, Repr

/-- The `delta?.content` branch: append the truthy text piece and perform a
throttled partial flush when more than 1000 ms have passed since the value of
`lastUpdateTime` (each flush writes the full accumulated string). -/
def applyContent (st : LoopState) (c : Chunk) : LoopState :=
  match jsTruthyOpt c.content with
  | none => st
  | some s =>
    let text := st.messageText ++ s
    if c.time - st.lastUpdateTime > 1000 then
      { st with
          messageText := text
          flushes := st.flushes ++ [(c.time, text)]
          lastUpdateTime := c.time }
    else { st with messageText := text }

/-- The `delta?.tool_calls` branch: merge each fragment into the pending
array. -/
def applyToolDeltas (st : LoopState) (c : Chunk) : LoopState :=
  { st with pendingToolCalls := c.tool_calls.foldl applyToolCallDelta st.pendingToolCalls }

/-- The fragment loop of `processMessageWithGemini`, chunk index `k` tracking
how many pulls have completed. Per iteration: abort check (`break`), content
accumulation with throttled flush, tool-call merging, and the
`finish_reason === "tool_calls" && pendingToolCalls.length > 0` early return. -/
def runLoop (m : AbortMode) : Nat → LoopState → List Chunk → LoopState × LoopEnd
  | _, st, [] => (st, .exhausted)
  | k, st, c :: rest =>
    match m with
    | .throwAt j =>
      if k = j then (st, .threwAbort)
      else
        let st := applyToolDeltas (applyContent st c) c
        if c.finish_reason = some "tool_calls" ∧ st.pendingToolCalls.length > 0 then
          (st, .toolReturn)
        else runLoop m (k + 1) st rest
    | .breakAt j =>
      if j ≤ k then (st, .brokeOnAbort)
      else
        let st := applyToolDeltas (applyContent st c) c
        if c.finish_reason = some "tool_calls" ∧ st.pendingToolCalls.length > 0 then
          (st, .toolReturn)
        else runLoop m (k + 1) st rest
    | .noAbort =>
      let st := applyToolDeltas (applyContent st c) c
      if c.finish_reason = some "tool_calls" ∧ st.pendingToolCalls.length > 0 then
        (st, .toolReturn)
      else runLoop m (k + 1) st rest

/-- Observable outcome of one `processMessageWithGemini` round (identity
fixed; the recursion after tool calls is modelled separately by
`handleToolCalls`). `flushes` are the throttled in-loop writes; `finalFlush`
is the unconditional post-loop `partialUpdateMessage`; `appendedAssistant` is
the content of the assistant turn pushed onto `conversationHistory`;
`clearEmitted` / `errorEmitted` record the `ai_indicator` events of this
round; `toolHandoff` carries the pending array handed to `handleToolCalls`. -/
structure GenOutcome where
  flushes : List (Nat × String)
  finalFlush : Option String
  appendedAssistant : Option String
  clearEmitted : Bool
  errorEmitted : Bool
  toolHandoff : Option PendingArr
deriving DecidableEq, Repr

/-- `processMessageWithGemini` (lines 140-257) for a stream that delivers
`chunks` and is never made to raise a non-abort error. On `toolReturn` the
function returns inside the loop: no final flush, no assistant turn, no
indicator. On `AbortError` the `catch` filter swallows the exception: no
further effect. In the two remaining cases — the stream exhausted, or the
`break` on an observed abort signal — control falls to the code after the
loop, which always performs the final flush, appends the accumulated text as
an assistant turn and emits `ai_indicator.clear`. -/
def processMessageWithGemini (m : AbortMode) (chunks : List Chunk) : GenOutcome :=
  let st := (runLoop m 0 initLoopState chunks).1
  match (runLoop m 0 initLoopState chunks).2 with
  | .toolReturn =>
    { flushes := st.flushes, finalFlush := none, appendedAssistant := none,
      clearEmitted := false, errorEmitted := false, toolHandoff := some st.pendingToolCalls }
  | .threwAbort =>
    { flushes := st.flushes, finalFlush := none, appendedAssistant := none,
      clearEmitted := false, errorEmitted := false, toolHandoff := none }
  | .exhausted | .brokeOnAbort =>
    { flushes := st.flushes, finalFlush := some st.messageText,
      appendedAssistant := some st.messageText,
      clearEmitted := true, errorEmitted := false, toolHandoff := none }

theorem applyContent_pending (st : LoopState) (c : Chunk) :
    (applyContent st c).pendingToolCalls = st.pendingToolCalls := by
  unfold applyContent
  rcases jsTruthyOpt c.content with _ | s
  · rfl
  · dsimp only
    split <;> rfl

theorem applyContent_messageText (st : LoopState) (c : Chunk) :
    (applyContent st c).messageText = st.messageText ++ (jsTruthyOpt c.content).getD "" := by
  unfold applyContent
  rcases jsTruthyOpt c.content with _ | s
  · simp
  · dsimp only
    split <;> rfl

theorem applyContent_flushes (st : LoopState) (c : Chunk) :
    ∃ l, (applyContent st c).flushes = st.flushes ++ l := by
  unfold applyContent
  rcases jsTruthyOpt c.content with _ | s
  · exact ⟨[], by simp⟩
  · dsimp only
    split
    · exact ⟨[(c.time, st.messageText ++ s)], rfl⟩
    · exact ⟨[], by simp⟩

theorem applyToolDeltas_pending (st : LoopState) (c : Chunk) :
    (applyToolDeltas st c).pendingToolCalls
      = c.tool_calls.foldl applyToolCallDelta st.pendingToolCalls := rfl

theorem applyToolDeltas_messageText (st : LoopState) (c : Chunk) :
    (applyToolDeltas st c).messageText = st.messageText := rfl

theorem applyToolDeltas_flushes (st : LoopState) (c : Chunk) :
    (applyToolDeltas st c).flushes = st.flushes := rfl

/-- Without abort and with no tool-call fragments anywhere, the loop runs to
exhaustion, keeps the pending array empty, and accumulates exactly the
concatenation of the truthy content pieces. -/
theorem runLoop_text_only (chunks : List Chunk) (k : Nat) (st : LoopState)
    (htc : ∀ c ∈ chunks, c.tool_calls = []) (hp : st.pendingToolCalls = []) :
    (runLoop .noAbort k st chunks).2 = .exhausted
    ∧ (runLoop .noAbort k st chunks).1.messageText
        = st.messageText ++ concatAll (chunks.filterMap (fun c => jsTruthyOpt c.content))
    ∧ (runLoop .noAbort k st chunks).1.pendingToolCalls = [] := by
  induction chunks generalizing k st with
  | nil => simpa [runLoop, concatAll] using hp
  | cons c rest ih =>
    have hc : c.tool_calls = [] := htc c (by simp)
    have hrest : ∀ c' ∈ rest, c'.tool_calls = [] := fun c' h' => htc c' (by simp [h'])
    have hpend : (applyToolDeltas (applyContent st c) c).pendingToolCalls = [] := by
      rw [applyToolDeltas_pending, hc]
      simpa [applyContent_pending] using hp
    have hcond : ¬(c.finish_reason = some "tool_calls"
        ∧ (applyToolDeltas (applyContent st c) c).pendingToolCalls.length > 0) := by
      rw [hpend]
      simp
    simp only [runLoop]
    rw [if_neg hcond]
    obtain ⟨h1, h2, h3⟩ := ih (k + 1) _ hrest hpend
    refine ⟨h1, ?_, h3⟩
    rw [h2, applyToolDeltas_messageText, applyContent_messageText]
    rcases h : jsTruthyOpt c.content with _ | s <;>
      simp [h, concatAll, String.append_assoc, List.filterMap_cons]

/-- Throttle invariant: either no partial flush has happened yet (throttle
clock still at its epoch initialisation `0`), or at least one has, the last
one happened inside the run window `[S, S + T]`, and the `n`-th flush cannot
have happened before `S + 1001 * (n - 1)` because consecutive flushes are
separated by strictly more than 1000 ms. -/
def FlushInv (S T : Nat) (st : LoopState) : Prop :=
  (st.lastUpdateTime = 0 ∧ st.flushes = [])
  ∨ (1 ≤ st.flushes.length ∧ S ≤ st.lastUpdateTime ∧ st.lastUpdateTime ≤ S + T
      ∧ S + 1001 * (st.flushes.length - 1) ≤ st.lastUpdateTime)

theorem applyContent_inv (S T : Nat) (st : LoopState) (c : Chunk)
    (hS : S ≤ c.time) (hT : c.time ≤ S + T) (hinv : FlushInv S T st) :
    FlushInv S T (applyContent st c) := by
  unfold applyContent
  rcases jsTruthyOpt c.content with _ | s
  · exact hinv
  · dsimp only
    split
    · rename_i hflush
      have hgap : st.lastUpdateTime + 1001 ≤ c.time := by omega
      right
      refine ⟨by simp, hS, hT, ?_⟩
      rcases hinv with ⟨h0, hf⟩ | ⟨h1, h2, h3, h4⟩
      · rw [hf]
        simpa using hS
      · simp only [List.length_append, List.length_cons, List.length_nil]
        omega
    · exact hinv

theorem runLoop_inv (S T : Nat) (m : AbortMode) (chunks : List Chunk) (k : Nat) (st : LoopState)
    (hc : ∀ c ∈ chunks, S ≤ c.time ∧ c.time ≤ S + T) (hinv : FlushInv S T st) :
    FlushInv S T (runLoop m k st chunks).1 := by
  induction chunks generalizing k st with
  | nil => simpa [runLoop] using hinv
  | cons c rest ih =>
    have h1 := hc c (by simp)
    have hrest : ∀ c' ∈ rest, S ≤ c'.time ∧ c'.time ≤ S + T :=
      fun c' h' => hc c' (by simp [h'])
    have hstep : FlushInv S T (applyToolDeltas (applyContent st c) c) := by
      have h := applyContent_inv S T st c h1.1 h1.2 hinv
      unfold FlushInv at h ⊢
      rw [applyToolDeltas_flushes]
      exact h
    rcases m with _ | j | j <;> simp only [runLoop]
    · split
      · exact hstep
      · exact ih (k + 1) _ hrest hstep
    · split
      · exact hinv
      · split
        · exact hstep
        · exact ih (k + 1) _ hrest hstep
    · split
      · exact hinv
      · split
        · exact hstep
        · exact ih (k + 1) _ hrest hstep

/-- The time-triggered flush count over a run confined to a window of
duration `T ≥ 1` ms is at most `ceil(T / 1000)`, whatever the abort mode and
however the fragments fall inside the window. -/
theorem runLoop_flush_bound (S T : Nat) (m : AbortMode) (chunks : List Chunk)
    (hT : 1 ≤ T) (hc : ∀ c ∈ chunks, S ≤ c.time ∧ c.time ≤ S + T) :
    (runLoop m 0 initLoopState chunks).1.flushes.length ≤ (T + 999) / 1000 := by
  have hinv : FlushInv S T (runLoop m 0 initLoopState chunks).1 :=
    runLoop_inv S T m chunks 0 initLoopState hc (Or.inl ⟨rfl, rfl⟩)
  rcases hinv with ⟨_, hf⟩ | ⟨h1, h2, h3, h4⟩
  · simp [hf]
  · have hq : (runLoop m 0 initLoopState chunks).1.flushes.length - 1 ≤ T / 1001 := by
      rw [Nat.le_div_iff_mul_le (by norm_num)]
      omega
    have hqT : T / 1001 * 1001 ≤ T := Nat.div_mul_le_self T 1001
    have h5 : T / 1001 + 1 ≤ (T + 999) / 1000 := by
      rw [Nat.le_div_iff_mul_le (by norm_num)]
      omega
    omega

/-- The loop only ever appends to the flush record. -/
theorem runLoop_flushes_extend (m : AbortMode) (chunks : List Chunk) (k : Nat) (st : LoopState) :
    ∃ l, (runLoop m k st chunks).1.flushes = st.flushes ++ l := by
  induction chunks generalizing k st with
  | nil => exact ⟨[], by simp [runLoop]⟩
  | cons c rest ih =>
    obtain ⟨l0, hl0⟩ := applyContent_flushes st c
    have hl0' : (applyToolDeltas (applyContent st c) c).flushes = st.flushes ++ l0 := by
      rw [applyToolDeltas_flushes, hl0]
    rcases m with _ | j | j <;> simp only [runLoop]
    · split
      · exact ⟨l0, hl0'⟩
      · obtain ⟨l1, hl1⟩ := ih (k + 1) (applyToolDeltas (applyContent st c) c)
        exact ⟨l0 ++ l1, by rw [hl1, hl0', List.append_assoc]⟩
    · split
      · exact ⟨[], by simp⟩
      · split
        · exact ⟨l0, hl0'⟩
        · obtain ⟨l1, hl1⟩ := ih (k + 1) (applyToolDeltas (applyContent st c) c)
          exact ⟨l0 ++ l1, by rw [hl1, hl0', List.append_assoc]⟩
    · split
      · exact ⟨[], by simp⟩
      · split
        · exact ⟨l0, hl0'⟩
        · obtain ⟨l1, hl1⟩ := ih (k + 1) (applyToolDeltas (applyContent st c) c)
          exact ⟨l0 ++ l1, by rw [hl1, hl0', List.append_assoc]⟩

/-- In a text-only run, the first chunk carrying truthy content triggers a
partial flush at its own clock reading (the throttle clock starts at `0`, so
any realistic `Date.now()` value exceeds the 1000 ms threshold at once): the
first delta is not held back at all. -/
theorem runLoop_first_flush (chunks : List Chunk) (k : Nat) (st : LoopState) (c₀ : Chunk)
    (hfind : chunks.find? (fun c => (jsTruthyOpt c.content).isSome) = some c₀)
    (htime : 1000 < c₀.time)
    (htc : ∀ c ∈ chunks, c.tool_calls = [])
    (h0 : st.lastUpdateTime = 0) (hf : st.flushes = []) (hp : st.pendingToolCalls = []) :
    ((runLoop .noAbort k st chunks).1.flushes).head?.map Prod.fst = some c₀.time := by
  induction chunks generalizing k st with
  | nil => simp at hfind
  | cons c rest ih =>
    have hc : c.tool_calls = [] := htc c (by simp)
    have hrest : ∀ c' ∈ rest, c'.tool_calls = [] := fun c' h' => htc c' (by simp [h'])
    by_cases hcc : (jsTruthyOpt c.content).isSome
    · have hc₀ : c₀ = c := by
        rw [List.find?_cons_of_pos _ (by simpa using hcc)] at hfind
        exact (Option.some_inj.mp hfind).symm
      rw [hc₀] at htime ⊢
      obtain ⟨s, hs⟩ := Option.isSome_iff_exists.mp hcc
      have hpend : (applyToolDeltas (applyContent st c) c).pendingToolCalls = [] := by
        rw [applyToolDeltas_pending, hc]
        simpa [applyContent_pending] using hp
      have hfl : (applyToolDeltas (applyContent st c) c).flushes
          = [(c.time, st.messageText ++ s)] := by
        rw [applyToolDeltas_flushes]
        unfold applyContent
        rw [hs]
        dsimp only
        rw [if_pos (by omega), hf]
        rfl
      have hcond : ¬(c.finish_reason = some "tool_calls"
          ∧ (applyToolDeltas (applyContent st c) c).pendingToolCalls.length > 0) := by
        rw [hpend]
        simp
      simp only [runLoop]
      rw [if_neg hcond]
      obtain ⟨l, hl⟩ :=
        runLoop_flushes_extend .noAbort rest (k + 1) (applyToolDeltas (applyContent st c) c)
      rw [hl, hfl]
      rfl
    · have hnone : jsTruthyOpt c.content = none := Option.not_isSome_iff_eq_none.mp hcc
      have hstep : applyToolDeltas (applyContent st c) c = st := by
        have h1 : applyContent st c = st := by
          unfold applyContent
          rw [hnone]
        rw [h1]
        unfold applyToolDeltas
        rw [hc]
        rfl
      have hfind' : rest.find? (fun c => (jsTruthyOpt c.content).isSome) = some c₀ := by
        rwa [List.find?_cons_of_neg _ (by simpa using hcc)] at hfind
      have hcond : ¬(c.finish_reason = some "tool_calls"
          ∧ (applyToolDeltas (applyContent st c) c).pendingToolCalls.length > 0) := by
        rw [hstep, hp]
        simp
      simp only [runLoop]
      rw [if_neg hcond, hstep]
      exact ih (k + 1) st hfind' hrest h0 hf hp

/-- Roles of `ChatCompletionMessageParam` entries in `conversationHistory`. -/
inductive Role where
  | system
  | user
  | assistant
  | tool
deriving DecidableEq, Repr

/-- One `conversationHistory` entry: role, optional `content`, the raw
`tool_calls` array for the assistant tool-call turn, and `tool_call_id` for
tool-result turns. -/
structure Turn where
  role : Role
  content : Option String
  tool_calls : PendingArr
  tool_call_id : Option String
deriving DecidableEq, Repr

/-- The identity `(cid, id)` of the placeholder channel message a generation
round targets. -/
structure MessageIdentity where
  id : String
  cid : String
deriving DecidableEq, Repr

/-- The trimming block of `handleMessage` (lines 117-123): when the history
exceeds 21 entries, keep element 0 (the system prompt) and the last 20
entries. -/
def trimHistory (h : List Turn) : List Turn :=
  if h.length > 21 then h.take 1 ++ h.drop (h.length - 20) else h

/-- The history-mutating operations of the agent; `getWritingAssistantPrompt`
is impure (it reads the current date), so the model abstracts it as the
ambient function `promptFor : Option String → String` from the optional
writing context to the produced prompt text. -/
inductive HistOp where
  | userMsg (text : String) (writingTask : Option String)
  | assistantText (text : String)
  | assistantToolCalls (tcs : PendingArr)
  | toolResult (callId : Option String) (content : String)
deriving DecidableEq, Repr

/-- Effect of one operation on `conversationHistory`:
`userMsg` is the `handleMessage` path (lines 104-123) — replace element 0
when a truthy `writingTask` is present, push the user turn, trim;
`assistantText` is the post-stream push (lines 237-240); the other two are
the pushes of `handleToolCalls` (lines 265-268 and 276-293), none of which
trim. -/
def applyHistOp (promptFor : Option String → String) (h : List Turn) : HistOp → List Turn
  | .userMsg text wt =>
    let h := match jsTruthyOpt wt with
      | some task =>
        h.set 0 ⟨.system, some (promptFor (some ("Writing Task: " ++ task))), [], none⟩
      | none => h
    trimHistory (h ++ [⟨.user, some text, [], none⟩])
  | .assistantText t => h ++ [⟨.assistant, some t, [], none⟩]
  | .assistantToolCalls tcs => h ++ [⟨.assistant, none, tcs, none⟩]
  | .toolResult cid content => h ++ [⟨.tool, some content, [], cid⟩]

/-- `init` (lines 44-50): the history starts as the single system turn built
with no writing context. -/
def initHistory (promptFor : Option String → String) : List Turn :=
  [⟨.system, some (promptFor none), [], none⟩]

/-- The writing context in effect after a sequence of operations: the last
truthy `writingTask` (with its `Writing Task: ` prefix), if any. -/
def currentContext (ctx : Option String) : List HistOp → Option String
  | [] => ctx
  | op :: rest =>
    currentContext
      (match op with
        | .userMsg _ wt =>
          match jsTruthyOpt wt with
          | some task => some ("Writing Task: " ++ task)
          | none => ctx
        | _ => ctx)
      rest

theorem trimHistory_head (h : List Turn) : (trimHistory h).head? = h.head? := by
  unfold trimHistory
  split
  · rename_i hlen
    rcases h with _ | ⟨a, t⟩
    · simp at hlen
    · rfl
  · rfl

theorem trimHistory_ne_nil (h : List Turn) (hne : h ≠ []) : trimHistory h ≠ [] := by
  unfold trimHistory
  split
  · rename_i hlen
    rcases h with _ | ⟨a, t⟩
    · simp at hlen
    · simp
  · exact hne

/-- A user-message append always leaves the history within the 21-entry
bound, whatever its length was before. -/
theorem applyHistOp_userMsg_length (promptFor : Option String → String)
    (h : List Turn) (t : String) (w : Option String) :
    (applyHistOp promptFor h (.userMsg t w)).length ≤ 21 := by
  unfold applyHistOp trimHistory
  rcases jsTruthyOpt w with _ | task <;> dsimp only <;> split <;>
    rename_i hlen <;> simp_all <;> omega

theorem applyHistOp_head (promptFor : Option String → String) (h : List Turn)
    (op : HistOp) (ctx : Option String)
    (hh : h.head? = some ⟨.system, some (promptFor ctx), [], none⟩) :
    (applyHistOp promptFor h op).head?
      = some ⟨.system, some (promptFor (currentContext ctx [op])), [], none⟩ := by
  rcases h with _ | ⟨a, rest⟩
  · simp at hh
  cases op with
  | userMsg t w =>
    simp only [applyHistOp]
    rcases hw : jsTruthyOpt w with _ | task
    · simp only [hw]
      rw [trimHistory_head]
      simp only [currentContext, hw]
      simpa using hh
    · simp only [hw]
      rw [trimHistory_head]
      simp only [currentContext, hw]
      rfl
  | assistantText t =>
    unfold applyHistOp currentContext currentContext
    simpa using hh
  | assistantToolCalls tcs =>
    unfold applyHistOp currentContext currentContext
    simpa using hh
  | toolResult cid content =>
    unfold applyHistOp currentContext currentContext
    simpa using hh

theorem applyHistOp_ne_nil (promptFor : Option String → String) (h : List Turn)
    (op : HistOp) : applyHistOp promptFor h op ≠ [] := by
  cases op with
  | userMsg t w =>
    unfold applyHistOp
    rcases jsTruthyOpt w with _ | task <;> dsimp only <;>
      exact trimHistory_ne_nil _ (by simp)
  | assistantText t => simp [applyHistOp]
  | assistantToolCalls tcs => simp [applyHistOp]
  | toolResult cid content => simp [applyHistOp]

/-- Element 0 of the history is always the system turn carrying the prompt
built from the most recently set writing context. -/
theorem foldl_applyHistOp_head (promptFor : Option String → String)
    (ops : List HistOp) (h : List Turn) (ctx : Option String)
    (hh : h.head? = some ⟨.system, some (promptFor ctx), [], none⟩) :
    (ops.foldl (applyHistOp promptFor) h).head?
      = some ⟨.system, some (promptFor (currentContext ctx ops)), [], none⟩ := by
  induction ops generalizing h ctx with
  | nil => simpa [currentContext] using hh
  | cons op rest ih =>
    simp only [List.foldl_cons]
    have hstep := applyHistOp_head promptFor h op ctx hh
    have : currentContext ctx (op :: rest)
        = currentContext (currentContext ctx [op]) rest := by
      cases op <;> rfl
    rw [this]
    exact ih _ _ hstep

/-- The outcome of `fetch` + body reads in `performWebSearch`: either the
`Response` arrived with an HTTP `status` (with `response.ok` meaning
`200 ≤ status < 300`), carrying its body both as raw text (`response.text()`)
and as the `JSON.stringify(await response.json())` round-trip (`none` when
`response.json()` throws on an unparseable body), or the call threw. -/
inductive FetchOutcome where
  | resp (status : Nat) (text : String) (jsonReser : Option String)
  | threw
deriving DecidableEq, Repr

/-- `response.ok`. -/
def respOk (status : Nat) : Bool := 200 ≤ status && status < 300

/-- `OpenAIAgent.performWebSearch` (lines 332-379), as a function of the
configured credential and the HTTP outcome. Never throws; always returns a
JSON string: missing/empty key → immediate error object with no network
call; `!response.ok` → error-with-details; `response.ok` → the payload
re-serialised; any exception → error object. -/
def performWebSearch (tavilyApiKey : Option String) (fetched : FetchOutcome)
    (query : String) : String :=
  if jsFalsyStr tavilyApiKey then
    jsonErrorObj "Web Search is Not Available, API Key Not Configured."
  else
    match fetched with
    | .threw => jsonErrorObj "An Exception Occurred During Web Search"
    | .resp status text jsonReser =>
      if !respOk status then
        jsonErrorDetails ("Search Failed with Status Code: " ++ toString status) text
      else
        match jsonReser with
        | some data => data
        | none => jsonErrorObj "An Exception Occurred During Web Search"

/-- `handleToolCalls` (lines 259-297). The `for (const toolCall of
toolCalls)` loop over the possibly-holey pending array: a hole is
`undefined`, so `toolCall.function.name` throws a `TypeError` outside the
inner `try` (propagating to the caller's `catch` with the history already
holding the assistant tool-call turn); a `web_search` call parses its
arguments inside the `try` (`parseQuery` models `JSON.parse` plus the
`.query` read, `none` meaning the parse threw) and pushes a tool turn keyed
by the call's id; a call with any other name pushes nothing. -/
def toolResultsFor (parseQuery : String → Option String) (searchFn : String → String) :
    PendingArr → Except Unit (List Turn)
  | [] => .ok []
  | none :: _ => .error ()
  | some tc :: rest =>
    let thisResult : List Turn :=
      if tc.name = "web_search" then
        match parseQuery tc.arguments with
        | some q => [⟨.tool, some (searchFn q), [], tc.id⟩]
        | none => [⟨.tool, some (jsonErrorObj "Failed to perform web search"), [], tc.id⟩]
      else []
    (toolResultsFor parseQuery searchFn rest).map (fun ts => thisResult ++ ts)

/-- `handleToolCalls` proper: push the assistant turn carrying the raw
requests, run the loop, push the collected tool results, then recurse into
`processMessageWithGemini` on the same `channelMessage`. On the hole-throw
the error value carries the history as mutated so far. -/
def handleToolCalls (parseQuery : String → Option String) (searchFn : String → String)
    (h : List Turn) (toolCalls : PendingArr) (channelMessage : MessageIdentity) :
    Except (List Turn) (List Turn × MessageIdentity) :=
  let h1 := h ++ [⟨.assistant, none, toolCalls, none⟩]
  match toolResultsFor parseQuery searchFn toolCalls with
  | .error _ => .error h1
  | .ok results => .ok (h1 ++ results, channelMessage)

/-- A controller in `activeStreamControllers`. The source stores bare
`AbortController`s; `genMsgId` is the ghost annotation recording the id of
the placeholder message of the generation that registered the controller
(known at the `push` site inside `processMessageWithGemini`), which the
stop handler never consults. -/
structure StreamController where
  genMsgId : String
deriving DecidableEq, Repr

/-- The `ai_indicator.stop` event payload fields the agent reads. -/
structure StopEvent where
  message_id : Option String
  cid : Option String
deriving DecidableEq, Repr

/-- Externally visible actions of the agent's stop handler and `dispose`. -/
inductive AgentEffect where
  | abortController (genMsgId : String)
  | clearIndicator (cid : Option String) (message_id : String)
  | offMessageNew
  | offStopHandler
  | disconnectUser
deriving DecidableEq, Repr

/-- Indicator-type effects (the only user-visible signalling). -/
def AgentEffect.isIndicator : AgentEffect → Bool
  | .clearIndicator _ _ => true
  | _ => false

/-- `handleStopGenerating` (lines 299-315): return silently when the event
carries no (truthy) `message_id` or when `activeStreamControllers` is empty;
otherwise abort every active controller, empty the set, and emit one
`ai_indicator.clear` addressed at the event's own `cid`/`message_id`. No
comparison of the event's `message_id` against anything tracked occurs. -/
def handleStopGenerating (ev : StopEvent) (active : List StreamController) :
    List StreamController × List AgentEffect :=
  if jsFalsyStr ev.message_id || active.isEmpty then (active, [])
  else
    ([], active.map (fun c => AgentEffect.abortController c.genMsgId)
        ++ [AgentEffect.clearIndicator ev.cid (ev.message_id.getD "")])

/-- `dispose` (lines 16-24): unsubscribe both handlers, disconnect, abort
whatever is active and empty the set. No indicator event is emitted. -/
def dispose (active : List StreamController) :
    List StreamController × List AgentEffect :=
  ([], [AgentEffect.offMessageNew, AgentEffect.offStopHandler, AgentEffect.disconnectUser]
      ++ active.map (fun c => AgentEffect.abortController c.genMsgId))

/-- Full characterisation of the tool-invocation loop on any hole-free
pending array (arbitrary mixture of names): one tool turn per slot named
`web_search`, keyed by that slot's id and carrying the parsed-query search
result or the structured parse-failure error, in order; a slot with any
other name contributes nothing. -/
theorem toolResultsFor_no_holes (parseQuery : String → Option String)
    (searchFn : String → String) (tcs : PendingArr)
    (hall : ∀ s ∈ tcs, s.isSome = true) :
    toolResultsFor parseQuery searchFn tcs
      = .ok (tcs.filterMap (fun s => s.bind (fun tc =>
          if tc.name = "web_search" then
            some (⟨.tool, some (match parseQuery tc.arguments with
                | some q => searchFn q
                | none => jsonErrorObj "Failed to perform web search"), [], tc.id⟩
              : Turn)
          else none))) := by
  induction tcs with
  | nil => rfl
  | cons s rest ih =>
    have hs := hall s (by simp)
    obtain ⟨v, rfl⟩ := Option.isSome_iff_exists.mp hs
    have hrest : ∀ s' ∈ rest, s'.isSome = true := fun s' h' => hall s' (by simp [h'])
    unfold toolResultsFor
    rw [ih hrest]
    simp only [List.filterMap_cons, Option.some_bind, Except.map]
    by_cases hv : v.name = "web_search"
    · rw [if_pos hv, if_pos hv]
      rcases hpq : parseQuery v.arguments with _ | q <;> simp [hpq]
    · rw [if_neg hv, if_neg hv]
      simp

theorem processMessageWithGemini_flushes (m : AbortMode) (chunks : List Chunk) :
    (processMessageWithGemini m chunks).flushes
      = (runLoop m 0 initLoopState chunks).1.flushes := by
  unfold processMessageWithGemini
  cases hend : (runLoop m 0 initLoopState chunks).2 <;> rfl

end OpenAIAgent

/-- Characterisation of JavaScript falsiness on optional strings. -/
theorem jsFalsyStr_iff (o : Option String) :
    jsFalsyStr o = true ↔ o = none ∨ o = some "" := by
  rcases o with _ | s
  · simp [jsFalsyStr, jsTruthyOpt]
  · by_cases h : s = ""
    · subst h
      simp [jsFalsyStr, jsTruthyOpt]
    · simp [jsFalsyStr, jsTruthyOpt, h]

namespace OpenAIResposnseHandler

/-- Mutable state of the handler class (`OpenAIResponseHandler.ts`): the
`is_done` terminal flag and the `run_id` learnt from the stream (empty string
until `thread.run.created`). -/
structure HandlerState where
  run_id : String
  is_done : Bool
deriving DecidableEq, Repr

/-- Externally visible actions of the handler's stop/dispose paths. -/
inductive HandlerEffect where
  | cancelRun (runId : String)
  | clearIndicator (cid : String) (message_id : String)
  | offStopHandler
  | onDispose
deriving DecidableEq, Repr

def HandlerEffect.isIndicator : HandlerEffect → Bool
  | .clearIndicator _ _ => true
  | _ => false

/-- `dispose` (lines 25-33): guarded by `is_done`; on first call set the
flag, unsubscribe the stop handler and invoke the `onDispose` callback. -/
def dispose (st : HandlerState) : HandlerState × List HandlerEffect :=
  if st.is_done then (st, [])
  else ({ st with is_done := true }, [HandlerEffect.offStopHandler, HandlerEffect.onDispose])

/-- `handleStopGenerating` (lines 35-60), for the handler bound to message
`selfId`/`selfCid`: ignore when already done or when the event's
`message_id` differs from this handler's own message id; ignore (before any
effect) when no run id has been learnt yet; otherwise cancel the run
(cancellation errors are caught and ignored), emit one clear for this
message, and dispose. -/
def handleStopGenerating (selfId selfCid : String) (ev : OpenAIAgent.StopEvent)
    (st : HandlerState) : HandlerState × List HandlerEffect :=
  if st.is_done || ev.message_id ≠ some selfId then (st, [])
  else if st.run_id = "" then (st, [])
  else
    let d := dispose st
    (d.1, [HandlerEffect.cancelRun st.run_id, HandlerEffect.clearIndicator selfCid selfId] ++ d.2)

/-- `OpenAIResposnseHandler.performWebSearch` (lines 126-174). Identical to
the agent's version except that the branch guard is `if (response.ok)` — the
error-with-details object is built from a SUCCESSFUL response, and only a
failed response reaches the payload parse. -/
def performWebSearch (tavilyApiKey : Option String) (fetched : OpenAIAgent.FetchOutcome)
    (query : String) : String :=
  if jsFalsyStr tavilyApiKey then
    jsonErrorObj "Web Search is Not Available, API Key Not Configured."
  else
    match fetched with
    | .threw => jsonErrorObj "An Exception Occurred During Web Search"
    | .resp status text jsonReser =>
      if OpenAIAgent.respOk status then
        jsonErrorDetails ("Search Failed with Status Code: " ++ toString status) text
      else
        match jsonReser with
        | some data => data
        | none => jsonErrorObj "An Exception Occurred During Web Search"

end OpenAIResposnseHandler

/-- The constructed `StreamChat` server client of `serverClient.ts`. -/
structure ServerClient where
  apiKey : String
  apiSecret : String
deriving DecidableEq, Repr

/-- Module load of `serverClient.ts` (lines 1-10) as a function of the two
environment variables: the guard `!apiKey || !apiSecret` uses JavaScript
falsiness, so it throws when either variable is `undefined` OR the empty
string; otherwise the module exports the constructed client. -/
def serverClientModule (apiKey apiSecret : Option String) : Except String ServerClient :=
  if jsFalsyStr apiKey || jsFalsyStr apiSecret then
    .error "Missing Required Environment Variables For STREAAM_API_KEY and STREAM_API_SECRET"
  else .ok ⟨apiKey.getD "", apiSecret.getD ""⟩

/-- C1 (exhibit of the divergence): consider a generation whose cancellation
signal is observed mid-stream at the top of the fragment loop (the `break`
path, reachable whenever a fragment was already delivered when the stop
handler aborted the controller): the consumer does stop consuming, but then
falls through to the post-loop code and performs the final flush of the
partial text, appends it as an assistant turn and emits a clear indicator —
all three of which the claim requires not to happen. The same cancellation
observed as an `AbortError` on the awaited pull (second conjunct) behaves as
the claim states. -/
theorem c1_break_path_completes_despite_abort :
    OpenAIAgent.processMessageWithGemini (.breakAt 1)
        [⟨1500, some "Hel", [], none⟩, ⟨1600, some "lo", [], none⟩]
      = { flushes := [(1500, "Hel")], finalFlush := some "Hel",
          appendedAssistant := some "Hel", clearEmitted := true,
          errorEmitted := false, toolHandoff := none }
    ∧ OpenAIAgent.processMessageWithGemini (.throwAt 1)
        [⟨1500, some "Hel", [], none⟩, ⟨1600, some "lo", [], none⟩]
      = { flushes := [(1500, "Hel")], finalFlush := none,
          appendedAssistant := none, clearEmitted := false,
          errorEmitted := false, toolHandoff := none } := by
  constructor <;> rfl

/-- C2 counterexample: a stop event whose `message_id` (`"m2"`) matches no
tracked generation identity (only `"m1"` is active) nevertheless aborts the
active generation, empties the active set and emits a clear indicator — the
claim requires no state change and no events in this situation. -/
theorem c2_counterexample :
    ("m2" ∉ ([⟨"m1"⟩] : List OpenAIAgent.StreamController).map
        (fun c => c.genMsgId))
    ∧ OpenAIAgent.handleStopGenerating ⟨some "m2", some "c1"⟩ [⟨"m1"⟩]
      = ([], [.abortController "m1", .clearIndicator (some "c1") "m2"]) := by
  constructor
  · decide
  · rfl

/-- C2 (amended): the stop handler ignores the event exactly when it carries
no (truthy) `message_id` or when no generation is active; otherwise —
regardless of whether the id matches anything tracked — it aborts every
active generation, empties the active set, and emits exactly one clear
indicator, addressed at the event's own identity. -/
theorem c2_stop_handler_behaviour (ev : OpenAIAgent.StopEvent)
    (active : List OpenAIAgent.StreamController) :
    (jsFalsyStr ev.message_id = true ∨ active = [] →
      OpenAIAgent.handleStopGenerating ev active = (active, []))
    ∧ (jsFalsyStr ev.message_id = false → active ≠ [] →
        (OpenAIAgent.handleStopGenerating ev active).1 = []
        ∧ (∀ c ∈ active, OpenAIAgent.AgentEffect.abortController c.genMsgId
            ∈ (OpenAIAgent.handleStopGenerating ev active).2)
        ∧ ((OpenAIAgent.handleStopGenerating ev active).2.filter
            (fun e => e.isIndicator)).length = 1
        ∧ OpenAIAgent.AgentEffect.clearIndicator ev.cid (ev.message_id.getD "")
            ∈ (OpenAIAgent.handleStopGenerating ev active).2) := by
  constructor
  · intro h
    unfold OpenAIAgent.handleStopGenerating
    rcases h with h | h
    · rw [if_pos (by simp [h])]
    · rw [if_pos (by simp [h])]
  · intro h1 h2
    unfold OpenAIAgent.handleStopGenerating
    rw [if_neg (by simp [h1, h2])]
    refine ⟨rfl, ?_, ?_, ?_⟩
    · intro c hc
      simp only [List.mem_append, List.mem_map]
      exact Or.inl ⟨c, hc, rfl⟩
    · rw [List.filter_append, List.filter_map]
      have habort : ∀ c : OpenAIAgent.StreamController,
          (OpenAIAgent.AgentEffect.abortController c.genMsgId).isIndicator = false := by
        intro c
        rfl
      simp [List.filter_eq_nil_iff, Function.comp, habort,
        OpenAIAgent.AgentEffect.isIndicator]
    · simp

/-- C2 witness for the amended theorem at concrete inputs: an event with no
message id is ignored, and an event with a message id while a generation is
active empties the active set. -/
theorem c2_stop_handler_behaviour_witness :
    OpenAIAgent.handleStopGenerating ⟨none, none⟩ [⟨"m1"⟩] = ([⟨"m1"⟩], [])
    ∧ (OpenAIAgent.handleStopGenerating ⟨some "m1", some "c"⟩ [⟨"m1"⟩]).1 = [] := by
  constructor
  · exact (c2_stop_handler_behaviour ⟨none, none⟩ [⟨"m1"⟩]).1 (Or.inl (by decide))
  · exact ((c2_stop_handler_behaviour ⟨some "m1", some "c"⟩ [⟨"m1"⟩]).2
      (by decide) (by decide)).1

/-- C3 counterexample: a sequence of appends — twenty user messages (filling
the buffer to its 21-entry cap) followed by one assistant turn — leaves the
buffer at 22 entries, because only the user-message path trims. -/
theorem c3_counterexample :
    ((List.replicate 20 (OpenAIAgent.HistOp.userMsg "hi" none)
        ++ [OpenAIAgent.HistOp.assistantText "ok"]).foldl
      (OpenAIAgent.applyHistOp (fun _ => "prompt"))
      (OpenAIAgent.initHistory (fun _ => "prompt"))).length = 22 := by
  decide

/-- C3 (amended): element 0 of the buffer is always the most recently set
system prompt; trimming retains element 0 plus an order-preserving suffix of
the turns; and the ≤ 21 length bound holds after every user-message append
(the only operation that trims) — though not, as the counterexample shows,
after the tool-call and assistant appends. -/
theorem c3_window_invariant_amended :
    (∀ (promptFor : Option String → String) (ops : List OpenAIAgent.HistOp),
      (ops.foldl (OpenAIAgent.applyHistOp promptFor)
          (OpenAIAgent.initHistory promptFor)).head?
        = some ⟨.system, some (promptFor (OpenAIAgent.currentContext none ops)),
            [], none⟩)
    ∧ (∀ (promptFor : Option String → String) (ops : List OpenAIAgent.HistOp)
          (t : String) (w : Option String),
        ((ops ++ [OpenAIAgent.HistOp.userMsg t w]).foldl
            (OpenAIAgent.applyHistOp promptFor)
            (OpenAIAgent.initHistory promptFor)).length ≤ 21)
    ∧ (∀ h : List OpenAIAgent.Turn, ∃ k,
        OpenAIAgent.trimHistory h = h.take 1 ++ h.drop k) := by
  refine ⟨?_, ?_, ?_⟩
  · intro promptFor ops
    exact OpenAIAgent.foldl_applyHistOp_head promptFor ops _ none rfl
  · intro promptFor ops t w
    rw [List.foldl_append]
    simp only [List.foldl_cons, List.foldl_nil]
    exact OpenAIAgent.applyHistOp_userMsg_length promptFor _ t w
  · intro h
    unfold OpenAIAgent.trimHistory
    split
    · exact ⟨h.length - 20, rfl⟩
    · exact ⟨1, (List.take_append_drop 1 h).symm⟩

/-- C4 (exhibit of the divergence): `OpenAIResposnseHandler.performWebSearch`
inverts the `response.ok` test. On a successful response (status 200) it
returns the error-with-details object built from the response body, and on a
failed response (status 500) it forwards the parsed body as if it were the
payload; the agent's own `performWebSearch` (conjuncts three and four)
behaves as the claim states. -/
theorem c4_inverted_ok_condition :
    OpenAIResposnseHandler.performWebSearch (some "k")
        (.resp 200 "BODY" (some "PAYLOAD")) "q"
      = jsonErrorDetails "Search Failed with Status Code: 200" "BODY"
    ∧ OpenAIResposnseHandler.performWebSearch (some "k")
        (.resp 500 "ERR" (some "PARSED")) "q"
      = "PARSED"
    ∧ OpenAIAgent.performWebSearch (some "k")
        (.resp 200 "BODY" (some "PAYLOAD")) "q"
      = "PAYLOAD"
    ∧ OpenAIAgent.performWebSearch (some "k")
        (.resp 500 "ERR" (some "PARSED")) "q"
      = jsonErrorDetails "Search Failed with Status Code: 500" "ERR" := by
  refine ⟨rfl, rfl, rfl, rfl⟩

/-- C5: for a stream of text deltas with no tool-call fragments, consumed
without abort to exhaustion, the final flush writes exactly the concatenation
of all the deltas' text values in arrival order — independent of how the
1-second throttle split the intermediate writes — and the same text is
appended as the new assistant turn, with the clear indicator signalled. -/
theorem c5_final_text_is_concatenation (chunks : List OpenAIAgent.Chunk)
    (htc : ∀ c ∈ chunks, c.tool_calls = []) :
    (OpenAIAgent.processMessageWithGemini .noAbort chunks).finalFlush
      = some (concatAll (chunks.filterMap (fun c => jsTruthyOpt c.content)))
    ∧ (OpenAIAgent.processMessageWithGemini .noAbort chunks).appendedAssistant
      = some (concatAll (chunks.filterMap (fun c => jsTruthyOpt c.content)))
    ∧ (OpenAIAgent.processMessageWithGemini .noAbort chunks).clearEmitted = true := by
  obtain ⟨h1, h2, h3⟩ :=
    OpenAIAgent.runLoop_text_only chunks 0 OpenAIAgent.initLoopState htc rfl
  unfold OpenAIAgent.processMessageWithGemini
  rw [h1]
  dsimp only
  rw [h2]
  simp [OpenAIAgent.initLoopState]

/-- C5 witness: three deltas (one with no content) split across the throttle
accumulate to the exact concatenation. -/
theorem c5_final_text_is_concatenation_witness :
    (OpenAIAgent.processMessageWithGemini .noAbort
        [⟨10, some "a", [], none⟩, ⟨20, none, [], none⟩,
          ⟨2000, some "b", [], none⟩]).finalFlush = some "ab" := by
  have h := c5_final_text_is_concatenation
    [⟨10, some "a", [], none⟩, ⟨20, none, [], none⟩, ⟨2000, some "b", [], none⟩]
    (by decide)
  rw [h.1]
  rfl

/-- C6: for any interleaved tool-call fragment sequence, the slot the loop
leaves at index `i` is absent when no fragment addressed `i`, and otherwise
carries the id and type of the first fragment for `i` together with the
name and arguments strings obtained by concatenating, in arrival order,
that index's truthy name/arguments pieces onto the initially empty slot. -/
theorem c6_tool_fragment_reassembly (tcs : List OpenAIAgent.ToolCallDelta) (i : Nat) :
    OpenAIAgent.getSlot (tcs.foldl OpenAIAgent.applyToolCallDelta []) i
      = match tcs.filter (fun tc => tc.index = i) with
        | [] => none
        | first :: _ => some ⟨first.id, first.tcType,
            concatAll ((tcs.filter (fun tc => tc.index = i)).filterMap
              (fun tc => jsTruthyOpt tc.fnName)),
            concatAll ((tcs.filter (fun tc => tc.index = i)).filterMap
              (fun tc => jsTruthyOpt tc.fnArguments))⟩ := by
  rw [OpenAIAgent.getSlot_foldl, OpenAIAgent.getSlot_nil]
  rcases h : tcs.filter (fun tc => tc.index = i) with _ | ⟨first, rest⟩
  · rw [h]
    rfl
  · rw [h]
    simp only [List.foldl_cons]
    rw [OpenAIAgent.foldl_applyAt_some]
    have hfirst : OpenAIAgent.applyAt none first
        = ⟨first.id, first.tcType, (jsTruthyOpt first.fnName).getD "",
            (jsTruthyOpt first.fnArguments).getD ""⟩ := by
      unfold OpenAIAgent.applyAt
      rcases jsTruthyOpt first.fnName with _ | s <;>
        rcases jsTruthyOpt first.fnArguments with _ | t <;> simp
    rw [hfirst]
    simp only [List.filterMap_cons]
    rcases hn : jsTruthyOpt first.fnName with _ | s <;>
      rcases ha : jsTruthyOpt first.fnArguments with _ | t <;>
        simp [hn, ha, concatAll]

/-- C7 counterexample: one completed tool call whose name is not
`web_search` — the handler appends the assistant tool-call turn but NO
tool-result turn at all (the claim requires one result turn per call). -/
theorem c7_counterexample :
    OpenAIAgent.handleToolCalls (fun _ => none) (fun _ => "r") []
        [some ⟨some "call_1", some "function", "other_tool", ""⟩] ⟨"m", "c"⟩
      = .ok ([⟨.assistant, none,
              [some ⟨some "call_1", some "function", "other_tool", ""⟩], none⟩],
             ⟨"m", "c"⟩)
    ∧ ([some (⟨some "call_1", some "function", "other_tool", ""⟩
          : OpenAIAgent.PendingToolCall)].length = 1) := by
  constructor
  · rfl
  · rfl

/-- C7 (amended): on the tool-calls terminal signal the consumer hands off
without a final flush, assistant turn or indicator (second conjunct); the
handler then, for ANY hole-free list of completed tool calls — `web_search`
calls and other-named calls arbitrarily mixed — appends one assistant turn
carrying the raw requests, appends one tool-result turn per `web_search`
call keyed by its call id (malformed arguments becoming a structured error
turn, not a thrown error) and nothing for a call with any other name, and
restarts generation on the same message identity (first conjunct). -/
theorem c7_tool_round_amended :
    (∀ (parseQuery : String → Option String) (searchFn : String → String)
        (h : List OpenAIAgent.Turn) (tcs : OpenAIAgent.PendingArr)
        (cm : OpenAIAgent.MessageIdentity),
      (∀ s ∈ tcs, s.isSome = true) →
      OpenAIAgent.handleToolCalls parseQuery searchFn h tcs cm
        = .ok (h ++ [⟨.assistant, none, tcs, none⟩]
            ++ tcs.filterMap (fun s => s.bind (fun tc =>
                if tc.name = "web_search" then
                  some ((⟨.tool, some (match parseQuery tc.arguments with
                      | some q => searchFn q
                      | none => jsonErrorObj "Failed to perform web search"),
                    [], tc.id⟩ : OpenAIAgent.Turn))
                else none)), cm))
    ∧ (∀ (m : OpenAIAgent.AbortMode) (chunks : List OpenAIAgent.Chunk),
        (OpenAIAgent.processMessageWithGemini m chunks).toolHandoff.isSome = true →
        (OpenAIAgent.processMessageWithGemini m chunks).finalFlush = none
        ∧ (OpenAIAgent.processMessageWithGemini m chunks).appendedAssistant = none
        ∧ (OpenAIAgent.processMessageWithGemini m chunks).clearEmitted = false) := by
  constructor
  · intro parseQuery searchFn h tcs cm hall
    unfold OpenAIAgent.handleToolCalls
    rw [OpenAIAgent.toolResultsFor_no_holes parseQuery searchFn tcs hall]
  · intro m chunks
    unfold OpenAIAgent.processMessageWithGemini
    cases hend : (OpenAIAgent.runLoop m 0 OpenAIAgent.initLoopState chunks).2 <;>
        intro hhand <;>
      first
        | exact ⟨rfl, rfl, rfl⟩
        | simp at hhand

/-- C7 witness on a mixed list: a `web_search` call followed by an
`other_tool` call produce the assistant turn plus exactly one tool turn,
keyed by `call_1` (the `other_tool` call is skipped); and a stream ending in
the tool-calls signal performs no final flush. -/
theorem c7_tool_round_amended_witness :
    OpenAIAgent.handleToolCalls (fun _ => some "q") (fun _ => "RESULT") []
        [some ⟨some "call_1", some "function", "web_search", "args"⟩,
         some ⟨some "call_2", some "function", "other_tool", ""⟩] ⟨"m", "c"⟩
      = .ok ([⟨.assistant, none,
              [some ⟨some "call_1", some "function", "web_search", "args"⟩,
               some ⟨some "call_2", some "function", "other_tool", ""⟩], none⟩,
              ⟨.tool, some "RESULT", [], some "call_1"⟩], ⟨"m", "c"⟩)
    ∧ (OpenAIAgent.processMessageWithGemini .noAbort
        [⟨10, none, [⟨0, some "id1", some "function", some "web_search", some "arg"⟩],
          some "tool_calls"⟩]).finalFlush = none := by
  constructor
  · have h := c7_tool_round_amended.1 (fun _ => some "q") (fun _ => "RESULT") []
      [some ⟨some "call_1", some "function", "web_search", "args"⟩,
       some ⟨some "call_2", some "function", "other_tool", ""⟩] ⟨"m", "c"⟩
      (by decide)
    rw [h]
    rfl
  · exact (c7_tool_round_amended.2 .noAbort
      [⟨10, none, [⟨0, some "id1", some "function", some "web_search", some "arg"⟩],
        some "tool_calls"⟩] (by decide)).1

/-- C8 counterexample: a run of duration `T = 0` (its single delta arriving
exactly at the start instant `S = 2000`) performs one time-triggered partial
flush, exceeding the claimed bound `ceil(0 / 1000) = 0` — because the
throttle clock is initialised to the epoch (`lastUpdateTime = 0`), so the
first delta always flushes immediately. -/
theorem c8_counterexample :
    (OpenAIAgent.processMessageWithGemini .noAbort
        [⟨2000, some "hi", [], none⟩]).flushes.length = 1
    ∧ ((0 : Nat) + 999) / 1000 = 0
    ∧ (∀ c ∈ ([⟨2000, some "hi", [], none⟩] : List OpenAIAgent.Chunk),
        2000 ≤ c.time ∧ c.time ≤ 2000 + 0) := by
  decide

/-- C8 (amended): for any run confined to a window `[S, S + T]` with
`T ≥ 1` ms, the number of time-triggered partial flushes is at most
`ceil(T / 1000)` (first conjunct, any abort mode); and the first text delta
is not held back at all — in a text-only un-aborted run it is flushed at its
own arrival instant (second conjunct, requiring only the realistic condition
that the clock reading exceeds 1000, the throttle span measured from the
epoch-initialised `lastUpdateTime = 0`). -/
theorem c8_flush_bound_amended :
    (∀ (m : OpenAIAgent.AbortMode) (chunks : List OpenAIAgent.Chunk) (S T : Nat),
      1 ≤ T → (∀ c ∈ chunks, S ≤ c.time ∧ c.time ≤ S + T) →
      (OpenAIAgent.processMessageWithGemini m chunks).flushes.length
        ≤ (T + 999) / 1000)
    ∧ (∀ (chunks : List OpenAIAgent.Chunk) (c₀ : OpenAIAgent.Chunk),
        1000 < c₀.time →
        chunks.find? (fun c => (jsTruthyOpt c.content).isSome) = some c₀ →
        (∀ c ∈ chunks, c.tool_calls = []) →
        ((OpenAIAgent.processMessageWithGemini .noAbort chunks).flushes).head?.map
            Prod.fst
          = some c₀.time) := by
  constructor
  · intro m chunks S T hT hc
    rw [OpenAIAgent.processMessageWithGemini_flushes]
    exact OpenAIAgent.runLoop_flush_bound S T m chunks hT hc
  · intro chunks c₀ htime hfind htc
    rw [OpenAIAgent.processMessageWithGemini_flushes]
    exact OpenAIAgent.runLoop_first_flush chunks 0 OpenAIAgent.initLoopState c₀
      hfind htime htc rfl rfl rfl

/-- C8 witness: a two-delta run inside the window `[2000, 3500]` (`T = 1500`)
stays within the bound `ceil(1500 / 1000) = 2`, and its first delta is
flushed at its own instant `2000`. -/
theorem c8_flush_bound_amended_witness :
    (OpenAIAgent.processMessageWithGemini .noAbort
        [⟨2000, some "a", [], none⟩, ⟨3500, some "b", [], none⟩]).flushes.length
      ≤ (1500 + 999) / 1000
    ∧ ((OpenAIAgent.processMessageWithGemini .noAbort
        [⟨2000, some "a", [], none⟩, ⟨3500, some "b", [], none⟩]).flushes).head?.map
        Prod.fst = some 2000 := by
  constructor
  · exact c8_flush_bound_amended.1 .noAbort
      [⟨2000, some "a", [], none⟩, ⟨3500, some "b", [], none⟩] 2000 1500
      (by decide) (by decide)
  · exact c8_flush_bound_amended.2
      [⟨2000, some "a", [], none⟩, ⟨3500, some "b", [], none⟩]
      ⟨2000, some "a", [], none⟩ (by decide) (by decide) (by decide)

/-- C9: calling the stop handler twice in a row emits nothing on the second
call (first conjunct); the agent's `dispose` emits no indicator events at
all, on either of two consecutive calls (second conjunct); the response
handler's `dispose` and stop handler are fully silent on their second calls
(third and fourth conjuncts). All are total functions, so no exception can
be raised. -/
theorem c9_idempotent_stop_and_dispose :
    (∀ (ev : OpenAIAgent.StopEvent) (active : List OpenAIAgent.StreamController),
      (OpenAIAgent.handleStopGenerating ev
          (OpenAIAgent.handleStopGenerating ev active).1).2 = [])
    ∧ (∀ active : List OpenAIAgent.StreamController,
        ((OpenAIAgent.dispose active).2.filter (fun e => e.isIndicator)) = []
        ∧ ((OpenAIAgent.dispose (OpenAIAgent.dispose active).1).2.filter
            (fun e => e.isIndicator)) = [])
    ∧ (∀ st : OpenAIResposnseHandler.HandlerState,
        (OpenAIResposnseHandler.dispose (OpenAIResposnseHandler.dispose st).1).2 = [])
    ∧ (∀ (selfId selfCid : String) (ev : OpenAIAgent.StopEvent)
          (st : OpenAIResposnseHandler.HandlerState),
        (OpenAIResposnseHandler.handleStopGenerating selfId selfCid ev
            (OpenAIResposnseHandler.handleStopGenerating selfId selfCid ev st).1).2
          = []) := by
  refine ⟨?_, ?_, ?_, ?_⟩
  · intro ev active
    by_cases h : (jsFalsyStr ev.message_id || active.isEmpty) = true
    · simp [OpenAIAgent.handleStopGenerating, h]
    · simp [OpenAIAgent.handleStopGenerating, h]
  · intro active
    constructor <;>
      simp [OpenAIAgent.dispose, List.filter_append, List.filter_map,
        Function.comp, OpenAIAgent.AgentEffect.isIndicator]
  · intro st
    by_cases h : st.is_done
    · simp [OpenAIResposnseHandler.dispose, h]
    · simp [OpenAIResposnseHandler.dispose, h]
  · intro selfId selfCid ev st
    unfold OpenAIResposnseHandler.handleStopGenerating OpenAIResposnseHandler.dispose
    by_cases hdone : st.is_done = true
    · simp [hdone]
    · by_cases hid : ev.message_id = some selfId
      · by_cases hrun : st.run_id = ""
        · simp [hdone, hid, hrun]
        · simp [hdone, hid, hrun]
      · simp [hdone, hid]

/-- C10 counterexample: with the key set to the empty string (present, not
absent) and the secret present, the module still throws, refuting the
claim's `otherwise it exports a constructed client`. -/
theorem c10_counterexample :
    serverClientModule (some "") (some "secret")
      = .error "Missing Required Environment Variables For STREAAM_API_KEY and STREAM_API_SECRET"
    ∧ (some "" : Option String) ≠ none ∧ (some "secret" : Option String) ≠ none := by
  refine ⟨rfl, by decide, by decide⟩

/-- C10 (amended): the module throws at load exactly when either environment
variable is absent OR set to the empty string (JavaScript falsiness);
otherwise it exports the client constructed from the two values. -/
theorem c10_env_guard (k s : Option String) :
    ((k = none ∨ k = some "" ∨ s = none ∨ s = some "") →
      serverClientModule k s
        = .error "Missing Required Environment Variables For STREAAM_API_KEY and STREAM_API_SECRET")
    ∧ ((k ≠ none ∧ k ≠ some "" ∧ s ≠ none ∧ s ≠ some "") →
      serverClientModule k s = .ok ⟨k.getD "", s.getD ""⟩) := by
  constructor
  · intro h
    have hb : (jsFalsyStr k || jsFalsyStr s) = true := by
      rcases h with h | h | h | h <;> subst h <;> simp [jsFalsyStr, jsTruthyOpt]
    simp [serverClientModule, hb]
  · rintro ⟨h1, h2, h3, h4⟩
    have hk : jsFalsyStr k = false := by
      cases hkk : jsFalsyStr k
      · rfl
      · rcases (jsFalsyStr_iff k).mp hkk with h | h
        · exact absurd h h1
        · exact absurd h h2
    have hs : jsFalsyStr s = false := by
      cases hss : jsFalsyStr s
      · rfl
      · rcases (jsFalsyStr_iff s).mp hss with h | h
        · exact absurd h h3
        · exact absurd h h4
    simp [serverClientModule, hk, hs]

/-- C10 witness: both variables present and non-empty exports the client;
an absent key throws. -/
theorem c10_env_guard_witness :
    serverClientModule (some "key") (some "secret") = .ok ⟨"key", "secret"⟩
    ∧ serverClientModule none (some "secret")
      = .error "Missing Required Environment Variables For STREAAM_API_KEY and STREAM_API_SECRET" := by
  constructor
  · exact (c10_env_guard (some "key") (some "secret")).2
      ⟨by decide, by decide, by decide, by decide⟩
  · exact (c10_env_guard none (some "secret")).1 (Or.inl rfl)
